import Mathlib

/-!
Verification development for the Metabrain retrieval-augmented answering
pipeline (Rust/Tauri sources under src-tauri/src).  Each Rust function that
the checked properties concern is shallowly embedded as a Lean definition:

* db.rs      : the SQLite-backed store is modelled as an explicit record of
               rows (artifacts, embeddings, chat messages); each store
               operation is a pure function on that record, translated from
               its SQL statement.  The rusqlite connection never enables the
               foreign-key pragma, so foreign keys are not enforced in the
               model either.
* parser.rs  : word splitting, joining and the sliding-window chunker.
* vector.rs  : cosine similarity and brute-force search; f32 arithmetic is
               modelled as exact real arithmetic.
* db.rs blob codec : f32 components are modelled by their 32-bit patterns,
               which is exactly what the little-endian byte codec transports.
* ingest.rs  : process_file and sync_vault as state-transition functions;
               the filesystem, the uuid generator and the embedding backend
               are inputs (oracles) to the transition.
* rag.rs     : the line filter of expand_query.
-/

namespace Codec

/-- One f32 vector component, modelled by its 32-bit pattern (a natural
number below 2^32).  `f32::to_le_bytes` of the component is the
little-endian byte decomposition of that pattern. -/
def wordToLeBytes (w : Nat) : List Nat :=
  [w % 256, w / 256 % 256, w / 65536 % 256, w / 16777216 % 256]

/-- db.rs `embedding_to_bytes`: flat-map of `to_le_bytes` over the vector. -/
def embedding_to_bytes (v : List Nat) : List Nat :=
  v.flatMap wordToLeBytes

/-- `chunks_exact(4)` from db.rs `bytes_to_embedding`: successive groups of
four bytes; a remainder shorter than four bytes is dropped. -/
def chunksExact4 : List Nat → List (List Nat)
  | a :: b :: c :: d :: rest => [a, b, c, d] :: chunksExact4 rest
  | _ => []

/-- `f32::from_le_bytes`: recombine four little-endian bytes into the
32-bit pattern. -/
def wordFromLeBytes : List Nat → Nat
  | [a, b, c, d] => a + 256 * b + 65536 * c + 16777216 * d
  | _ => 0

/-- db.rs `bytes_to_embedding`: decode each exact 4-byte group. -/
def bytes_to_embedding (bytes : List Nat) : List Nat :=
  (chunksExact4 bytes).map wordFromLeBytes

theorem wordFromLeBytes_wordToLeBytes (w : Nat) (hw : w < 4294967296) :
    wordFromLeBytes (wordToLeBytes w) = w := by
  simp only [wordToLeBytes, wordFromLeBytes]
  omega

/-- Claim C8: encoding a vector of 32-bit components as the concatenation of
4-byte little-endian groups and decoding that blob yields the original
vector bit-for-bit. -/
theorem bytes_roundtrip (v : List Nat) (hv : ∀ x ∈ v, x < 4294967296) :
    bytes_to_embedding (embedding_to_bytes v) = v := by
  induction v with
  | nil => rfl
  | cons w v ih =>
    have hw : w < 4294967296 := hv w (List.mem_cons_self w v)
    have hv2 : ∀ x ∈ v, x < 4294967296 := fun x hx => hv x (List.mem_cons_of_mem _ hx)
    simp only [embedding_to_bytes, List.flatMap_cons] at *
    show bytes_to_embedding (wordToLeBytes w ++ v.flatMap wordToLeBytes) = w :: v
    simp only [wordToLeBytes, List.cons_append, List.nil_append]
    show (chunksExact4 _).map wordFromLeBytes = w :: v
    rw [chunksExact4]
    simp only [List.map_cons]
    have h1 : wordFromLeBytes [w % 256, w / 256 % 256, w / 65536 % 256, w / 16777216 % 256] = w :=
      wordFromLeBytes_wordToLeBytes w hw
    rw [h1]
    exact congrArg (List.cons w) (ih hv2)

/-- Witness for C8 at a concrete vector. -/
theorem bytes_roundtrip_witness :
    (∀ x ∈ [0, 1, 305419896, 4294967295], x < 4294967296) ∧
      bytes_to_embedding (embedding_to_bytes [0, 1, 305419896, 4294967295]) =
        [0, 1, 305419896, 4294967295] :=
  ⟨by decide, bytes_roundtrip [0, 1, 305419896, 4294967295] (by decide)⟩

end Codec

/-- db.rs `Embedding`: one stored chunk row.  The f32 vector is modelled as a
list of exact reals (the byte-level identity of the persisted blob is treated
separately in the `Codec` namespace). -/
structure Embedding where
  id : String
  artifact_id : String
  chunk_index : Int
  content : String
  embedding : List ℝ

namespace Vect

/-- vector.rs `SearchResult`: a chunk paired with its similarity score. -/
structure SearchResult where
  embedding : Embedding
  similarity : ℝ

/-- The dot product loop of vector.rs `cosine_similarity`:
`a.iter().zip(b.iter()).map(|(x, y)| x * y).sum()`. -/
def dotProduct (a b : List ℝ) : ℝ :=
  ((a.zip b).map (fun p => p.1 * p.2)).sum

/-- `a.iter().map(|x| x * x).sum::<f32>()` from vector.rs. -/
def sumSquares (a : List ℝ) : ℝ :=
  (a.map (fun x => x * x)).sum

/-- `a.iter().map(|x| x * x).sum::<f32>().sqrt()`: the vector magnitude. -/
noncomputable def magnitude (a : List ℝ) : ℝ :=
  Real.sqrt (sumSquares a)

/-- vector.rs `cosine_similarity`, guard structure as in the source:
mismatched lengths or an empty `a` return 0, then zero magnitudes return 0,
otherwise the normalized dot product. -/
noncomputable def cosine_similarity (a b : List ℝ) : ℝ :=
  if a.length ≠ b.length ∨ a = [] then 0
  else if magnitude a = 0 ∨ magnitude b = 0 then 0
  else dotProduct a b / (magnitude a * magnitude b)

/-- The descending comparator of `results.sort_by(|a, b|
b.similarity.partial_cmp(&a.similarity)...)`: `a` sorts before `b` iff
`b.similarity <= a.similarity` (exact reals have no NaN, so the comparator
is a total order). -/
def simDesc (a b : SearchResult) : Prop :=
  b.similarity ≤ a.similarity

noncomputable instance : DecidableRel simDesc :=
  fun a b => inferInstanceAs (Decidable (b.similarity ≤ a.similarity))

instance : IsTotal SearchResult simDesc :=
  ⟨fun a b => le_total b.similarity a.similarity⟩

instance : IsTrans SearchResult simDesc :=
  ⟨fun _ _ _ hab hbc => le_trans hbc hab⟩

/-- vector.rs `VectorStore::search`: the stored chunk set (as loaded by
`get_all_embeddings`) is a parameter; score every chunk, sort descending by
similarity, truncate to `limit`. -/
noncomputable def search (query_embedding : List ℝ) (embeddings : List Embedding)
    (limit : Nat) : List SearchResult :=
  if embeddings.isEmpty then []
  else
    (((embeddings.map (fun emb =>
        { embedding := emb,
          similarity := cosine_similarity query_embedding emb.embedding : SearchResult }))
      ).insertionSort simDesc).take limit

lemma sumSquares_nonneg (a : List ℝ) : 0 ≤ sumSquares a := by
  apply List.sum_nonneg
  intro x hx
  obtain ⟨y, _, rfl⟩ := List.mem_map.1 hx
  exact mul_self_nonneg y

lemma magnitude_nil : magnitude ([] : List ℝ) = 0 := by
  simp [magnitude, sumSquares, Real.sqrt_zero]

/-- Claim C6: cosine similarity returns 0 whenever the vectors differ in
length or either has zero magnitude, and otherwise equals the dot product
divided by the product of the magnitudes. -/
theorem cosine_similarity_spec (a b : List ℝ) :
    ((a.length ≠ b.length ∨ magnitude a = 0 ∨ magnitude b = 0) →
        cosine_similarity a b = 0) ∧
      (a.length = b.length → magnitude a ≠ 0 → magnitude b ≠ 0 →
        cosine_similarity a b = dotProduct a b / (magnitude a * magnitude b)) := by
  constructor
  · intro h
    unfold cosine_similarity
    by_cases h1 : a.length ≠ b.length ∨ a = []
    · rw [if_pos h1]
    · rw [if_neg h1]
      push_neg at h1
      have hm : magnitude a = 0 ∨ magnitude b = 0 := by
        rcases h with h | h | h
        · exact absurd h (not_not.2 h1.1)
        · exact Or.inl h
        · exact Or.inr h
      rw [if_pos hm]
  · intro hlen hma hmb
    unfold cosine_similarity
    have hnil : a ≠ [] := by
      intro hn
      exact hma (by rw [hn]; exact magnitude_nil)
    rw [if_neg (by push_neg; exact ⟨hlen, hnil⟩), if_neg (by push_neg; exact ⟨hma, hmb⟩)]

/-- Witness for C6: the two-dimensional vectors (1,0) and (0,2), plus the
mismatched-length pair ([1], []). -/
theorem cosine_similarity_spec_witness :
    (([1, 0] : List ℝ).length = ([0, 2] : List ℝ).length) ∧
      magnitude ([1, 0] : List ℝ) ≠ 0 ∧ magnitude ([0, 2] : List ℝ) ≠ 0 ∧
      cosine_similarity [1, 0] [0, 2] =
        dotProduct [1, 0] [0, 2] /
          (magnitude ([1, 0] : List ℝ) * magnitude ([0, 2] : List ℝ)) ∧
      (([1] : List ℝ).length ≠ ([] : List ℝ).length) ∧
      cosine_similarity [1] [] = 0 := by
  have h1 : magnitude ([1, 0] : List ℝ) = 1 := by
    have hs : sumSquares ([1, 0] : List ℝ) = 1 := by norm_num [sumSquares]
    rw [magnitude, hs, Real.sqrt_one]
  have h2 : magnitude ([0, 2] : List ℝ) = 2 := by
    have hs : sumSquares ([0, 2] : List ℝ) = 4 := by norm_num [sumSquares]
    have h4 : (4 : ℝ) = 2 ^ 2 := by norm_num
    rw [magnitude, hs, h4, Real.sqrt_sq (by norm_num)]
  refine ⟨rfl, ?_, ?_, ?_, by simp, ?_⟩
  · rw [h1]; norm_num
  · rw [h2]; norm_num
  · exact (cosine_similarity_spec [1, 0] [0, 2]).2 rfl (by rw [h1]; norm_num)
      (by rw [h2]; norm_num)
  · exact (cosine_similarity_spec [1] []).1 (Or.inl (by simp))

/-- Claim C5: for every query vector, chunk set and limit, search returns at
most `limit` results and their similarity scores are sorted non-increasing. -/
theorem search_spec (query_embedding : List ℝ) (embeddings : List Embedding)
    (limit : Nat) :
    (search query_embedding embeddings limit).length ≤ limit ∧
      List.Sorted (fun x y : ℝ => y ≤ x)
        ((search query_embedding embeddings limit).map SearchResult.similarity) := by
  unfold search
  by_cases he : embeddings.isEmpty
  · rw [if_pos he]
    exact ⟨Nat.zero_le _, List.sorted_nil⟩
  · rw [if_neg he]
    set scored := embeddings.map (fun emb =>
      { embedding := emb,
        similarity := cosine_similarity query_embedding emb.embedding : SearchResult })
    have hsorted : List.Sorted simDesc (scored.insertionSort simDesc) :=
      List.sorted_insertionSort simDesc scored
    constructor
    · exact List.length_take_le _ _
    · rw [List.map_take]
      apply List.Pairwise.sublist (List.take_sublist _ _)
      rw [List.pairwise_map]
      exact hsorted.imp (fun hab => hab)

end Vect

namespace Parser

/-- Rust `str::split_whitespace` on the character list of the text: skip
whitespace, collect each maximal run of non-whitespace characters. -/
def splitWsChars : List Char → List (List Char)
  | [] => []
  | c :: rest =>
    if c.isWhitespace then splitWsChars rest
    else (c :: rest.takeWhile (fun d => !d.isWhitespace)) ::
      splitWsChars (rest.dropWhile (fun d => !d.isWhitespace))
termination_by l => l.length
decreasing_by
  · simp only [List.length_cons]; omega
  · have h := (List.dropWhile_sublist (fun d => !d.isWhitespace) (l := rest)).length_le
    simp only [List.length_cons]; omega

/-- `text.split_whitespace().collect::<Vec<&str>>()` from parser.rs. -/
def splitWs (s : String) : List String :=
  (splitWsChars s.data).map String.mk

/-- `words.join(" ")` (slice join with a single-space separator). -/
def joinWordsCh : List (List Char) → List Char
  | [] => []
  | [w] => w
  | w :: rest => w ++ ' ' :: joinWordsCh rest

/-- `words[start..end].join(" ")` at the String level. -/
def joinWords (ws : List String) : String :=
  String.mk (joinWordsCh (ws.map String.data))

/-- parser.rs `CHUNK_SIZE`: target chunk size in words. -/
def CHUNK_SIZE : Nat := 500

/-- parser.rs `CHUNK_OVERLAP`: overlap between chunks in words. -/
def CHUNK_OVERLAP : Nat := 50

/-- The `while start < words.len()` loop of parser.rs `chunk_text`, at the
word level: each iteration takes the window `words[start..end]` with
`end = min(start + CHUNK_SIZE, len)` and then advances `start` to
`end - CHUNK_OVERLAP` (or to `end`, ending the loop, when the window reached
the end of the text). -/
def chunkWordsAux (ws : List String) (start : Nat) : List (List String) :=
  if start < ws.length then
    if min (start + CHUNK_SIZE) ws.length < ws.length then
      (ws.drop start).take (min (start + CHUNK_SIZE) ws.length - start) ::
        chunkWordsAux ws (min (start + CHUNK_SIZE) ws.length - CHUNK_OVERLAP)
    else [(ws.drop start).take (min (start + CHUNK_SIZE) ws.length - start)]
  else []
termination_by ws.length - start
decreasing_by
  rename_i h1 h2
  simp only [CHUNK_SIZE, CHUNK_OVERLAP] at h1 h2 ⊢
  omega

/-- The successive values taken by `start` at the head of each loop
iteration of `chunk_text` (the window start of each emitted chunk). -/
def chunkStarts (ws : List String) (start : Nat) : List Nat :=
  if start < ws.length then
    if min (start + CHUNK_SIZE) ws.length < ws.length then
      start :: chunkStarts ws (min (start + CHUNK_SIZE) ws.length - CHUNK_OVERLAP)
    else [start]
  else []
termination_by ws.length - start
decreasing_by
  rename_i h1 h2
  simp only [CHUNK_SIZE, CHUNK_OVERLAP] at h1 h2 ⊢
  omega

/-- parser.rs `MarkdownParser::chunk_text`: texts of at most `CHUNK_SIZE`
words yield the single chunk `[text]`; otherwise the sliding-window chunks,
each joined with single spaces. -/
def chunk_text (text : String) : List String :=
  let words := splitWs text
  if words.length ≤ CHUNK_SIZE then [text]
  else (chunkWordsAux words 0).map joinWords

/-- The word content of each chunk produced by `chunk_text` (the whole word
list for the single-chunk case, the sliding windows otherwise). -/
def wordChunks (ws : List String) : List (List String) :=
  if ws.length ≤ CHUNK_SIZE then [ws] else chunkWordsAux ws 0

lemma takeWhile_all_append (p : Char → Bool) (w r : List Char)
    (hw : ∀ c ∈ w, p c = true) : (w ++ r).takeWhile p = w ++ r.takeWhile p := by
  induction w with
  | nil => simp
  | cons c w ih =>
    have hc : p c = true := hw c (List.mem_cons_self c w)
    simp only [List.cons_append, List.takeWhile_cons, hc, if_true]
    rw [ih (fun d hd => hw d (List.mem_cons_of_mem _ hd))]

lemma dropWhile_all_append (p : Char → Bool) (w r : List Char)
    (hw : ∀ c ∈ w, p c = true) : (w ++ r).dropWhile p = r.dropWhile p := by
  induction w with
  | nil => simp
  | cons c w ih =>
    have hc : p c = true := hw c (List.mem_cons_self c w)
    simp only [List.cons_append, List.dropWhile_cons, hc, if_true]
    exact ih (fun d hd => hw d (List.mem_cons_of_mem _ hd))

lemma takeWhile_all (p : Char → Bool) (w : List Char) (hw : ∀ c ∈ w, p c = true) :
    w.takeWhile p = w := by
  have h := takeWhile_all_append p w [] hw
  simpa using h

lemma dropWhile_all (p : Char → Bool) (w : List Char) (hw : ∀ c ∈ w, p c = true) :
    w.dropWhile p = [] := by
  have h := dropWhile_all_append p w [] hw
  simpa using h

lemma splitWsChars_word (w : List Char) (hw : w ≠ [])
    (hn : ∀ c ∈ w, c.isWhitespace = false) : splitWsChars w = [w] := by
  cases w with
  | nil => exact absurd rfl hw
  | cons c w =>
    have hc : c.isWhitespace = false := hn c (List.mem_cons_self c w)
    have hall : ∀ d ∈ w, (fun d => !d.isWhitespace) d = true := by
      intro d hd
      simp [hn d (List.mem_cons_of_mem _ hd)]
    rw [splitWsChars, if_neg (by simp [hc]), takeWhile_all _ _ hall, dropWhile_all _ _ hall]
    simp [splitWsChars]

lemma splitWsChars_word_space (w r : List Char) (hw : w ≠ [])
    (hn : ∀ c ∈ w, c.isWhitespace = false) :
    splitWsChars (w ++ ' ' :: r) = w :: splitWsChars r := by
  cases w with
  | nil => exact absurd rfl hw
  | cons c w =>
    have hc : c.isWhitespace = false := hn c (List.mem_cons_self c w)
    have hall : ∀ d ∈ w, (fun d => !d.isWhitespace) d = true := by
      intro d hd
      simp [hn d (List.mem_cons_of_mem _ hd)]
    rw [List.cons_append, splitWsChars, if_neg (by simp [hc]),
      takeWhile_all_append _ _ _ hall, dropWhile_all_append _ _ _ hall]
    have hsp : (' ' :: r).takeWhile (fun d => !d.isWhitespace) = [] := by
      simp [List.takeWhile_cons]
    have hsp2 : (' ' :: r).dropWhile (fun d => !d.isWhitespace) = ' ' :: r := by
      simp [List.dropWhile_cons]
    rw [hsp, hsp2, splitWsChars, if_pos (by decide)]
    simp

lemma splitWsChars_join (wss : List (List Char))
    (h : ∀ w ∈ wss, w ≠ [] ∧ ∀ c ∈ w, c.isWhitespace = false) :
    splitWsChars (joinWordsCh wss) = wss := by
  induction wss with
  | nil => simp [joinWordsCh, splitWsChars]
  | cons w rest ih =>
    cases rest with
    | nil =>
      have hw := h w (List.mem_cons_self w [])
      simpa [joinWordsCh] using splitWsChars_word w hw.1 hw.2
    | cons w2 t =>
      have hw := h w (List.mem_cons_self w (w2 :: t))
      have hjoin : joinWordsCh (w :: w2 :: t) = w ++ ' ' :: joinWordsCh (w2 :: t) := rfl
      rw [hjoin, splitWsChars_word_space _ _ hw.1 hw.2,
        ih (fun v hv => h v (List.mem_cons_of_mem _ hv))]

lemma map_mk_data (ws : List String) : (ws.map String.data).map String.mk = ws := by
  induction ws with
  | nil => rfl
  | cons s t ih =>
    cases s
    simp only [List.map_cons]
    rw [ih]

lemma splitWs_joinWords (ws : List String)
    (h : ∀ w ∈ ws, w.data ≠ [] ∧ ∀ c ∈ w.data, c.isWhitespace = false) :
    splitWs (joinWords ws) = ws := by
  unfold splitWs joinWords
  have hdata : ∀ w ∈ ws.map String.data, w ≠ [] ∧ ∀ c ∈ w, c.isWhitespace = false := by
    intro w hw
    obtain ⟨s, hs, rfl⟩ := List.mem_map.1 hw
    exact h s hs
  show (splitWsChars (joinWordsCh (ws.map String.data))).map String.mk = ws
  rw [splitWsChars_join _ hdata, map_mk_data]

lemma mem_window (ws : List String) (s t i : Nat) (h1 : s ≤ i) (h2 : i < t)
    (h3 : t ≤ ws.length) : ws.getD i "" ∈ (ws.drop s).take (t - s) := by
  rw [List.mem_iff_getElem]
  refine ⟨i - s, by simp [List.length_take, List.length_drop]; omega, ?_⟩
  rw [List.getElem_take, List.getElem_drop, List.getD_eq_getElem ws "" (by omega)]
  congr 1
  omega

lemma chunkWordsAux_cover (ws : List String) :
    ∀ n start i, ws.length - start ≤ n → start ≤ i → i < ws.length →
      ∃ c ∈ chunkWordsAux ws start, ws.getD i "" ∈ c := by
  intro n
  induction n with
  | zero =>
    intro start i hn hsi hi
    omega
  | succ n ih =>
    intro start i hn hsi hi
    have hstart : start < ws.length := lt_of_le_of_lt hsi hi
    rw [chunkWordsAux, if_pos hstart]
    by_cases hel : min (start + CHUNK_SIZE) ws.length < ws.length
    · rw [if_pos hel]
      by_cases hie : i < min (start + CHUNK_SIZE) ws.length
      · exact ⟨_, List.mem_cons_self _ _, mem_window ws start _ i hsi hie (min_le_right _ _)⟩
      · have hsz : (500 : Nat) = CHUNK_SIZE := rfl
        have hov : (50 : Nat) = CHUNK_OVERLAP := rfl
        obtain ⟨c, hc, hm⟩ := ih (min (start + CHUNK_SIZE) ws.length - CHUNK_OVERLAP) i
          (by omega) (by omega) hi
        exact ⟨c, List.mem_cons_of_mem _ hc, hm⟩
    · rw [if_neg hel]
      have hmin : min (start + CHUNK_SIZE) ws.length = ws.length := by omega
      refine ⟨_, List.mem_singleton.2 rfl, ?_⟩
      rw [hmin]
      exact mem_window ws start ws.length i hsi hi le_rfl

lemma chunkStarts_head (ws : List String) (start : Nat) (h : start < ws.length) :
    (chunkStarts ws start).head? = some start := by
  rw [chunkStarts, if_pos h]
  by_cases hel : min (start + CHUNK_SIZE) ws.length < ws.length
  · rw [if_pos hel]; rfl
  · rw [if_neg hel]; rfl

lemma chunkStarts_chain (ws : List String) :
    ∀ n start, ws.length - start ≤ n →
      List.Chain' (fun a b => b = a + (CHUNK_SIZE - CHUNK_OVERLAP)) (chunkStarts ws start) := by
  intro n
  induction n with
  | zero =>
    intro start hn
    rw [chunkStarts, if_neg (by omega)]
    exact List.chain'_nil
  | succ n ih =>
    intro start hn
    by_cases hstart : start < ws.length
    · rw [chunkStarts, if_pos hstart]
      by_cases hel : min (start + CHUNK_SIZE) ws.length < ws.length
      · rw [if_pos hel]
        have hsz : (500 : Nat) = CHUNK_SIZE := rfl
        have hov : (50 : Nat) = CHUNK_OVERLAP := rfl
        rw [List.chain'_cons']
        constructor
        · intro y hy
          rw [chunkStarts_head ws _ (by omega)] at hy
          have hyeq : y = min (start + CHUNK_SIZE) ws.length - CHUNK_OVERLAP :=
            Option.some_injective _ hy.symm
          omega
        · exact ih _ (by omega)
      · rw [if_neg hel]
        simp
    · rw [chunkStarts, if_neg hstart]
      exact List.chain'_nil

/-- Claim C9: the chunker (a terminating total function) emits the window
starting at 0 and then windows whose starts advance by exactly
`CHUNK_SIZE - CHUNK_OVERLAP` (= 450) words each iteration, every word of the
text lies in at least one chunk window, and a text of at most `CHUNK_SIZE`
words yields the single chunk `[text]`. -/
theorem chunk_text_spec (t : String) :
    chunk_text t =
      (if (splitWs t).length ≤ CHUNK_SIZE then [t]
        else (chunkWordsAux (splitWs t) 0).map joinWords) ∧
    (∀ i, i < (splitWs t).length →
      ∃ c ∈ wordChunks (splitWs t), (splitWs t).getD i "" ∈ c) ∧
    List.Chain' (fun a b => b = a + (CHUNK_SIZE - CHUNK_OVERLAP))
      (chunkStarts (splitWs t) 0) := by
  refine ⟨rfl, ?_, chunkStarts_chain (splitWs t) (splitWs t).length 0 (by omega)⟩
  intro i hi
  unfold wordChunks
  by_cases hle : (splitWs t).length ≤ CHUNK_SIZE
  · rw [if_pos hle]
    refine ⟨splitWs t, List.mem_singleton.2 rfl, ?_⟩
    rw [List.getD_eq_getElem _ "" hi]
    exact List.getElem_mem hi
  · rw [if_neg hle]
    exact chunkWordsAux_cover (splitWs t) (splitWs t).length 0 i (by omega) (by omega) hi

lemma splitWs_alpha_beta : splitWs "alpha beta" = ["alpha", "beta"] := by
  have hj : joinWords ["alpha", "beta"] = "alpha beta" := rfl
  have h := splitWs_joinWords ["alpha", "beta"] (by decide)
  rw [hj] at h
  exact h

/-- Witness for C9 at the two-word text "alpha beta". -/
theorem chunk_text_spec_witness :
    0 < (splitWs "alpha beta").length ∧
      ∃ c ∈ wordChunks (splitWs "alpha beta"), (splitWs "alpha beta").getD 0 "" ∈ c :=
  ⟨by rw [splitWs_alpha_beta]; decide,
    (chunk_text_spec "alpha beta").2.1 0 (by rw [splitWs_alpha_beta]; decide)⟩

lemma chunkWordsAux_len1000 (ws : List String) (h : ws.length = 1000) :
    chunkWordsAux ws 0 =
      [ws.take 500, (ws.drop 450).take 500, (ws.drop 900).take 100] := by
  have e1 : min (0 + CHUNK_SIZE) ws.length = 500 := by
    rw [show CHUNK_SIZE = 500 from rfl]; omega
  rw [chunkWordsAux, e1, if_pos (by omega), if_pos (by omega),
    show (500 : Nat) - CHUNK_OVERLAP = 450 from rfl]
  have e2 : min (450 + CHUNK_SIZE) ws.length = 950 := by
    rw [show CHUNK_SIZE = 500 from rfl]; omega
  rw [chunkWordsAux, e2, if_pos (by omega), if_pos (by omega),
    show (950 : Nat) - CHUNK_OVERLAP = 900 from rfl]
  have e3 : min (900 + CHUNK_SIZE) ws.length = 1000 := by
    rw [show CHUNK_SIZE = 500 from rfl]; omega
  rw [chunkWordsAux, e3, if_pos (by omega), if_neg (by omega)]
  simp

/-- Three-character decimal words, used to build a concrete text of 1000
distinct whitespace-free words. -/
def natWord (i : Nat) : String :=
  String.mk [Nat.digitChar (i / 100), Nat.digitChar (i / 10 % 10), Nat.digitChar (i % 10)]

lemma digitChar_inj : ∀ d < 10, ∀ e < 10, Nat.digitChar d = Nat.digitChar e → d = e := by
  decide

lemma digitChar_not_ws : ∀ d < 10, (Nat.digitChar d).isWhitespace = false := by
  decide

lemma natWord_inj : ∀ i < 1000, ∀ j < 1000, natWord i = natWord j → i = j := by
  intro i hi j hj h
  have h2 : [Nat.digitChar (i / 100), Nat.digitChar (i / 10 % 10), Nat.digitChar (i % 10)] =
      [Nat.digitChar (j / 100), Nat.digitChar (j / 10 % 10), Nat.digitChar (j % 10)] :=
    congrArg String.data h
  simp only [List.cons.injEq, and_true] at h2
  obtain ⟨e1, e2, e3⟩ := h2
  have d1 := digitChar_inj _ (by omega) _ (by omega) e1
  have d2 := digitChar_inj _ (by omega) _ (by omega) e2
  have d3 := digitChar_inj _ (by omega) _ (by omega) e3
  omega

/-- The word list of the 1000-distinct-word test document. -/
def cexWords : List String := (List.range 1000).map natWord

/-- The 1000-distinct-word test document itself. -/
def cexText : String := joinWords cexWords

lemma cexWords_nodup : cexWords.Nodup := by
  unfold cexWords
  refine List.Nodup.map_on ?_ (List.nodup_range 1000)
  intro x hx y hy hxy
  exact natWord_inj x (List.mem_range.1 hx) y (List.mem_range.1 hy) hxy

lemma cexWords_wf :
    ∀ w ∈ cexWords, w.data ≠ [] ∧ ∀ c ∈ w.data, c.isWhitespace = false := by
  intro w hw
  obtain ⟨i, hi, rfl⟩ := List.mem_map.1 hw
  have hi2 : i < 1000 := List.mem_range.1 hi
  constructor
  · simp [natWord]
  · intro c hc
    have hdata : (natWord i).data =
        [Nat.digitChar (i / 100), Nat.digitChar (i / 10 % 10), Nat.digitChar (i % 10)] := rfl
    rw [hdata] at hc
    simp only [List.mem_cons, List.not_mem_nil, or_false] at hc
    rcases hc with rfl | rfl | rfl
    · exact digitChar_not_ws _ (by omega)
    · exact digitChar_not_ws _ (by omega)
    · exact digitChar_not_ws _ (by omega)

lemma cex_split : splitWs cexText = cexWords :=
  splitWs_joinWords cexWords cexWords_wf

lemma cex_len : (splitWs cexText).length = 1000 := by
  rw [cex_split]
  simp [cexWords]

lemma cex_nodup : (splitWs cexText).Nodup := by
  rw [cex_split]
  exact cexWords_nodup

/-- Counterexample for C3: on a document of exactly 1000 distinct words the
chunker emits three chunks, not the two the claim predicts. -/
theorem chunk_text_1000_cex :
    (splitWs cexText).Nodup ∧ (splitWs cexText).length = 1000 ∧
      (chunk_text cexText).length = 3 ∧
      chunk_text cexText ≠
        [joinWords ((splitWs cexText).take 500), joinWords ((splitWs cexText).drop 450)] := by
  have h3 : (chunk_text cexText).length = 3 := by
    show (if (splitWs cexText).length ≤ CHUNK_SIZE then [cexText]
      else (chunkWordsAux (splitWs cexText) 0).map joinWords).length = 3
    rw [if_neg (by rw [cex_len, show CHUNK_SIZE = 500 from rfl]; omega),
      chunkWordsAux_len1000 _ cex_len]
    rfl
  refine ⟨cex_nodup, cex_len, h3, ?_⟩
  intro h
  rw [h] at h3
  simp at h3

/-- Claim C3 as amended: a document of exactly 1000 distinct words yields
exactly three chunks, the joins of words [0..500), [450..950) and
[900..1000). -/
theorem chunk_text_1000 (t : String) (_hnd : (splitWs t).Nodup)
    (hlen : (splitWs t).length = 1000) :
    chunk_text t = [joinWords ((splitWs t).take 500),
      joinWords (((splitWs t).drop 450).take 500), joinWords ((splitWs t).drop 900)] := by
  have htk : ((splitWs t).drop 900).take 100 = (splitWs t).drop 900 := by
    apply List.take_of_length_le
    simp [List.length_drop, hlen]
  show (if (splitWs t).length ≤ CHUNK_SIZE then [t]
    else (chunkWordsAux (splitWs t) 0).map joinWords) = _
  rw [if_neg (by rw [hlen, show CHUNK_SIZE = 500 from rfl]; omega),
    chunkWordsAux_len1000 _ hlen]
  rw [List.map_cons, List.map_cons, List.map_cons, List.map_nil, htk]

/-- Witness for the amended C3 at the concrete 1000-word document. -/
theorem chunk_text_1000_witness :
    (splitWs cexText).Nodup ∧ (splitWs cexText).length = 1000 ∧
      chunk_text cexText = [joinWords ((splitWs cexText).take 500),
        joinWords (((splitWs cexText).drop 450).take 500),
        joinWords ((splitWs cexText).drop 900)] :=
  ⟨cex_nodup, cex_len, chunk_text_1000 cexText cex_nodup cex_len⟩

end Parser

namespace Rag

/-- Split a character list at every newline; `n` newlines yield `n + 1`
pieces (the scaffolding under Rust `str::lines`). -/
def splitNl : List Char → List (List Char)
  | [] => [[]]
  | c :: rest =>
    if c = '\x0a' then [] :: splitNl rest
    else
      match splitNl rest with
      | l :: ls => (c :: l) :: ls
      | [] => [[c]]

/-- Strip one trailing carriage return from a line that was terminated by a
newline (the `\x0d\x0a` line-ending handling of Rust `str::lines`). -/
def stripCr (l : List Char) : List Char :=
  if l.getLast? = some '\x0d' then l.dropLast else l

/-- Rust `str::lines` on the character list of the response: pieces between
newlines, with the terminating newline (and a carriage return directly
before it) removed, and no empty final piece for a trailing newline.  A
final piece not terminated by a newline keeps a trailing carriage return,
as in Rust. -/
def rustLines (cs : List Char) : List (List Char) :=
  let parts := splitNl cs
  if parts.getLast? = some [] then parts.dropLast.map stripCr
  else parts.dropLast.map stripCr ++ [parts.getLastD []]

/-- Rust `str::trim` on the character list: drop whitespace from both
ends. -/
def trimChars (cs : List Char) : List Char :=
  ((cs.dropWhile Char.isWhitespace).reverse.dropWhile Char.isWhitespace).reverse

/-- The predicate of `trim_start_matches(|c: char| c.is_numeric() || c ==
'.' || c == ')' || c == ' ')` in rag.rs `expand_query` (`is_numeric` is
modelled as the decimal-digit test). -/
def isMarkerChar (c : Char) : Bool :=
  c.isDigit || c == '.' || c == ')' || c == ' '

/-- `trimmed.trim_start_matches(...)`: remove the leading run of list-marker
characters. -/
def stripMarkers (cs : List Char) : List Char :=
  cs.dropWhile isMarkerChar

/-- The `for line in response.lines()` loop of rag.rs `expand_query`:
trim each line, keep it when it is non-empty, longer than 3 and shorter than
500 characters and does not start with a bullet, then strip leading list
markers and push the result when it is still non-empty. -/
def expandLoop : List (List Char) → List (List Char) → List (List Char)
  | [], queries => queries
  | line :: rest, queries =>
    if trimChars line ≠ [] ∧ (trimChars line).length > 3 ∧ (trimChars line).length < 500 ∧
        (trimChars line).head? ≠ some '-' ∧ (trimChars line).head? ≠ some '*' then
      if stripMarkers (trimChars line) ≠ [] then
        expandLoop rest (queries ++ [stripMarkers (trimChars line)])
      else expandLoop rest queries
    else expandLoop rest queries

/-- The parsing part of rag.rs `expand_query`: start from the original
query, on a successful provider response push every kept line, on a provider
error keep only the original query, and truncate the list to 4. -/
def expand_query_parse (query : String) (response : Except Unit String) : List String :=
  let queries : List (List Char) :=
    match response with
    | .ok resp => expandLoop (rustLines resp.data) [query.data]
    | .error _ => [query.data]
  (queries.take 4).map String.mk

/-- The per-line keep test exactly as the specification words it (amended):
trimmed length between 4 and 499, no bullet start, and a non-empty remainder
after marker stripping. -/
def specKeep (line : List Char) : Option (List Char) :=
  if 4 ≤ (trimChars line).length ∧ (trimChars line).length ≤ 499 ∧
      (trimChars line).head? ≠ some '-' ∧ (trimChars line).head? ≠ some '*' ∧
      stripMarkers (trimChars line) ≠ [] then
    some (stripMarkers (trimChars line))
  else none

/-- The lines the specification says survive the filter. -/
def keptLinesSpec (resp : List Char) : List (List Char) :=
  (rustLines resp).filterMap specKeep

lemma expandLoop_eq (lines : List (List Char)) :
    ∀ acc, expandLoop lines acc = acc ++ lines.filterMap specKeep := by
  induction lines with
  | nil => intro acc; simp [expandLoop]
  | cons line rest ih =>
    intro acc
    rw [expandLoop]
    by_cases hA : trimChars line ≠ [] ∧ (trimChars line).length > 3 ∧
        (trimChars line).length < 500 ∧ (trimChars line).head? ≠ some '-' ∧
        (trimChars line).head? ≠ some '*'
    · rw [if_pos hA]
      by_cases hC : stripMarkers (trimChars line) ≠ []
      · rw [if_pos hC, ih]
        have hs : specKeep line = some (stripMarkers (trimChars line)) := by
          unfold specKeep
          rw [if_pos ⟨by omega, by omega, hA.2.2.2.1, hA.2.2.2.2, hC⟩]
        rw [List.filterMap_cons, hs]
        simp
      · rw [if_neg hC, ih]
        have hs : specKeep line = none := by
          unfold specKeep
          rw [if_neg (fun hspec => hC hspec.2.2.2.2)]
        rw [List.filterMap_cons, hs]
    · rw [if_neg hA, ih]
      have hs : specKeep line = none := by
        unfold specKeep
        rw [if_neg]
        intro hspec
        apply hA
        refine ⟨?_, by omega, by omega, hspec.2.2.1, hspec.2.2.2.1⟩
        intro hn
        rw [hn] at hspec
        simp at hspec
      rw [List.filterMap_cons, hs]

/-- Claim C7 as amended: a kept line is one whose trimmed form is non-blank,
at least 4 and at most 499 characters long, does not start with a bullet
marker, and is still non-empty after stripping leading list markers; the
kept form is the marker-stripped trimmed line, the original question is
always the first query, and at most 4 queries are returned. -/
theorem expand_query_parse_spec (query : String) (resp : String)
    (r : Except Unit String) :
    expand_query_parse query (.ok resp) =
      ((query.data :: keptLinesSpec resp.data).take 4).map String.mk ∧
      (expand_query_parse query r).head? = some query ∧
      (expand_query_parse query r).length ≤ 4 := by
  refine ⟨?_, ?_, ?_⟩
  · show ((expandLoop (rustLines resp.data) [query.data]).take 4).map String.mk = _
    rw [expandLoop_eq]
    rfl
  · cases r with
    | ok resp2 =>
      show (((expandLoop (rustLines resp2.data) [query.data]).take 4).map String.mk).head? = _
      rw [expandLoop_eq]
      cases query
      rfl
    | error e =>
      cases query
      rfl
  · cases r with
    | ok resp2 =>
      show (((expandLoop (rustLines resp2.data) [query.data]).take 4).map String.mk).length ≤ 4
      rw [List.length_map]
      exact List.length_take_le _ _
    | error e =>
      show ((([query.data] : List (List Char)).take 4).map String.mk).length ≤ 4
      rw [List.length_map]
      exact List.length_take_le _ _

/-- A response line of exactly 500 characters. -/
def line500 : String := String.mk (List.replicate 500 'a')

set_option maxRecDepth 100000 in
/-- Counterexample for C7: a trimmed, non-bulleted line of exactly 500
characters (which the claim says is kept, being not longer than 500) is
discarded, and a line of 4 marker characters (which the claim's conditions
admit) is also discarded because its marker-stripped form is empty. -/
theorem expand_query_parse_cex :
    trimChars line500.data = line500.data ∧
      (trimChars line500.data).length = 500 ∧
      (trimChars line500.data).head? ≠ some '-' ∧
      (trimChars line500.data).head? ≠ some '*' ∧
      expand_query_parse "what is x" (.ok line500) = ["what is x"] ∧
      trimChars ("1234" : String).data = ("1234" : String).data ∧
      (trimChars ("1234" : String).data).length = 4 ∧
      expand_query_parse "what is x" (.ok "1234") = ["what is x"] := by
  refine ⟨by decide, by decide, by decide, by decide, by decide, by decide, by decide, by decide⟩

end Rag

namespace Ingest

/-- db.rs `Artifact`: one document record. -/
structure Artifact where
  id : String
  path : String
  last_modified : Int
  content_hash : String
  indexed_at : Int

/-- db.rs `ChatMessage`: one conversation row. -/
structure ChatMessage where
  id : Int
  role : String
  content : String
  timestamp : Int

/-- The SQLite database state: the three row sets the pipeline touches.
The `artifacts` table has PRIMARY KEY `id` and UNIQUE `path`; the
`embeddings` table has PRIMARY KEY `id`. -/
structure Store where
  artifacts : List Artifact
  embeddings : List Embedding
  chat_messages : List ChatMessage

/-- A failed SQLite statement (here always a constraint violation). -/
inductive DbError
  | sqliteConstraint

/-- ingest.rs `IngestError`, by source variant. -/
inductive IngestError
  | database
  | parser
  | embedding

/-- db.rs `get_artifact_by_path`: `SELECT ... WHERE path = ?1` (at most one
row exists by the UNIQUE constraint; the model returns the first). -/
def get_artifact_by_path (st : Store) (path : String) : Option Artifact :=
  st.artifacts.find? (fun a => a.path == path)

/-- db.rs `upsert_artifact`: `INSERT ... ON CONFLICT(id) DO UPDATE SET ...`.
A conflict on the `id` primary key updates that row; with no `id` conflict
the plain INSERT must satisfy the UNIQUE `path` constraint, so a row with
the same path but a different id makes the statement fail. -/
def upsert_artifact (st : Store) (a : Artifact) : Except DbError Store :=
  if st.artifacts.any (fun r => r.id == a.id) then
    if st.artifacts.any (fun r => r.id != a.id && r.path == a.path) then
      .error .sqliteConstraint
    else
      .ok { st with artifacts := st.artifacts.map (fun r => if r.id == a.id then a else r) }
  else if st.artifacts.any (fun r => r.path == a.path) then
    .error .sqliteConstraint
  else
    .ok { st with artifacts := st.artifacts ++ [a] }

/-- db.rs `delete_embeddings_by_artifact`: `DELETE FROM embeddings WHERE
artifact_id = ?1`. -/
def delete_embeddings_by_artifact (st : Store) (artifact_id : String) : Store :=
  { st with embeddings := st.embeddings.filter (fun e => e.artifact_id != artifact_id) }

/-- db.rs `insert_embedding`: a plain INSERT; it fails on an `id` primary
key conflict.  (The byte encoding of the vector is the identity
round-tripped codec of the `Codec` namespace and is elided here.) -/
def insert_embedding (st : Store) (e : Embedding) : Except DbError Store :=
  if st.embeddings.any (fun x => x.id == e.id) then .error .sqliteConstraint
  else .ok { st with embeddings := st.embeddings ++ [e] }

/-- The fields of parser.rs `ParsedDocument` that ingestion reads. -/
structure ParsedDocument where
  content_hash : String
  chunks : List String

/-- The external inputs consumed by `process_file` for one file: its path,
the parser outcome, the filesystem modification time, and the UUID that
`Uuid::new_v4()` returns for this call. -/
structure FileJob where
  path : String
  parse : Except Unit ParsedDocument
  last_modified : Int
  newId : String

/-- The per-chunk loop of ingest.rs `process_file`: embed each chunk in
order (one provider request per chunk) and insert its row with id
`{artifact}#{index}`; the first embedding or insert failure aborts the loop.
Returns the outcome, the resulting store, and the list of chunk texts for
which an embedding request was issued. -/
def insertChunks (embed : String → Except Unit (List ℝ)) (artifact_id : String) :
    Store → List String → Nat → Except IngestError Unit × Store × List String
  | st, [], _ => (.ok (), st, [])
  | st, chunk :: rest, idx =>
    match embed chunk with
    | .error _ => (.error .embedding, st, [chunk])
    | .ok v =>
      match insert_embedding st
          { id := artifact_id ++ "#" ++ toString idx, artifact_id := artifact_id,
            chunk_index := (idx : Int), content := chunk, embedding := v } with
      | .error _ => (.error .database, st, [chunk])
      | .ok st2 =>
        match insertChunks embed artifact_id st2 rest (idx + 1) with
        | (r, st3, calls) => (r, st3, chunk :: calls)

/-- The tail of ingest.rs `process_file` after the change check: upsert the
artifact record (with the freshly minted id), then run the chunk loop. -/
def processUpsert (embed : String → Except Unit (List ℝ)) (st : Store) (job : FileJob)
    (parsed : ParsedDocument) (now : Int) :
    Except IngestError Unit × Store × List String :=
  match upsert_artifact st
      { id := job.newId, path := job.path, last_modified := job.last_modified,
        content_hash := parsed.content_hash, indexed_at := now } with
  | .error _ => (.error .database, st, [])
  | .ok st2 => insertChunks embed job.newId st2 parsed.chunks 0

/-- ingest.rs `process_file` as a store transition: parse outcome, change
check against the stored record (skip on equal fingerprints, delete the old
chunks on a changed fingerprint), then upsert and chunk insertion. -/
def process_file (embed : String → Except Unit (List ℝ)) (st : Store) (job : FileJob)
    (now : Int) : Except IngestError Unit × Store × List String :=
  match job.parse with
  | .error _ => (.error .parser, st, [])
  | .ok parsed =>
    match get_artifact_by_path st job.path with
    | some existing =>
      if existing.content_hash == parsed.content_hash then (.ok (), st, [])
      else processUpsert embed (delete_embeddings_by_artifact st existing.id) job parsed now
    | none => processUpsert embed st job parsed now

/-- main.rs `SyncStatus`. -/
structure SyncStatus where
  is_running : Bool
  total_files : Nat
  processed_files : Nat
  last_sync_at : Option Int
  error : Option String

/-- The per-file loop of ingest.rs `sync_vault`: each file is processed,
a failure is only logged (the loop continues), and the processed count
advances for every file. -/
def syncLoop (embed : String → Except Unit (List ℝ)) (now : Int) :
    List FileJob → Store → Nat → List String → Store × Nat × List String
  | [], st, processed, calls => (st, processed, calls)
  | job :: rest, st, processed, calls =>
    match process_file embed st job now with
    | (_, st2, c) => syncLoop embed now rest st2 (processed + 1) (calls ++ c)

/-- ingest.rs `sync_vault`: `valid` is the outcome of the
`path.exists() && path.is_dir()` filesystem check and `scan` the file list
a directory scan would produce.  An invalid vault path only sets the status
error field and returns `Ok` with the status snapshot; otherwise every
scanned file is processed and the final status snapshot is returned.
Returns the result, the resulting store, and all embedding requests
issued. -/
def sync_vault (valid : Bool) (scan : List FileJob)
    (embed : String → Except Unit (List ℝ)) (st : Store) (status : SyncStatus)
    (now : Int) : Except IngestError SyncStatus × Store × List String :=
  if !valid then (.ok { status with error := some "Invalid vault path" }, st, [])
  else
    match syncLoop embed now scan st 0 [] with
    | (st2, processed, calls) =>
      (.ok { status with
              is_running := false
              error := none
              total_files := scan.length
              processed_files := processed
              last_sync_at := some now },
        st2, calls)

/-- Claim C10: with an invalid vault path, `sync_vault` returns a normal
`Ok` status snapshot whose error field is "Invalid vault path", leaves the
store untouched, issues no embedding requests, and its result does not
depend on any scan outcome (the equation holds for every `scan`). -/
theorem sync_vault_invalid (scan : List FileJob)
    (embed : String → Except Unit (List ℝ)) (st : Store) (status : SyncStatus)
    (now : Int) :
    sync_vault false scan embed st status now =
      (.ok { status with error := some "Invalid vault path" }, st, []) :=
  rfl

/-- Claim C4: when the stored fingerprint equals the parsed fingerprint,
`process_file` is a pure skip: it returns `Ok`, changes nothing in the
store (documents, chunks and conversation log alike), and issues no
embedding request. -/
theorem process_file_skip (embed : String → Except Unit (List ℝ)) (st : Store)
    (job : FileJob) (now : Int) (parsed : ParsedDocument) (a : Artifact)
    (hp : job.parse = .ok parsed)
    (hf : get_artifact_by_path st job.path = some a)
    (hh : a.content_hash = parsed.content_hash) :
    process_file embed st job now = (.ok (), st, []) := by
  unfold process_file
  rw [hp, hf]
  simp [hh]

def skipEmbed : String → Except Unit (List ℝ) := fun _ => .error ()

def skipParsed : ParsedDocument := { content_hash := "h1", chunks := ["body"] }

def skipArtifact : Artifact :=
  { id := "a1", path := "doc.md", last_modified := 0, content_hash := "h1", indexed_at := 0 }

def skipStore : Store :=
  { artifacts := [skipArtifact], embeddings := [], chat_messages := [] }

def skipJob : FileJob :=
  { path := "doc.md", parse := .ok skipParsed, last_modified := 3, newId := "fresh" }

/-- Witness for C4 at a concrete one-document store. -/
theorem process_file_skip_witness :
    skipJob.parse = .ok skipParsed ∧
      get_artifact_by_path skipStore skipJob.path = some skipArtifact ∧
      skipArtifact.content_hash = skipParsed.content_hash ∧
      process_file skipEmbed skipStore skipJob 9 = (.ok (), skipStore, []) :=
  ⟨rfl, rfl, rfl, process_file_skip skipEmbed skipStore skipJob 9 skipParsed skipArtifact rfl rfl rfl⟩

def c1Artifact : Artifact :=
  { id := "old-id", path := "note.md", last_modified := 0, content_hash := "h1", indexed_at := 0 }

def c1Embedding : Embedding :=
  { id := "old-id#0", artifact_id := "old-id", chunk_index := 0, content := "old text",
    embedding := [] }

def c1Store : Store :=
  { artifacts := [c1Artifact], embeddings := [c1Embedding], chat_messages := [] }

def c1Job : FileJob :=
  { path := "note.md", parse := .ok { content_hash := "h2", chunks := ["new text"] },
    last_modified := 1, newId := "new-id" }

def okEmbed : String → Except Unit (List ℝ) := fun _ => .ok []

/-- Claim C1 (code bug): re-indexing an existing path whose content changed
does not keep the document id, and does not update the record at all: the
old chunks are deleted, and the upsert of the freshly minted id then fails
on the UNIQUE path constraint, so the old record survives with its stale
fingerprint and an empty chunk set. -/
theorem process_file_changed_bug :
    process_file okEmbed c1Store c1Job 5 =
      (.error .database,
        { artifacts := [c1Artifact], embeddings := [], chat_messages := [] }, []) ∧
      get_artifact_by_path
        { artifacts := [c1Artifact], embeddings := [], chat_messages := [] } c1Job.path =
        some c1Artifact ∧
      c1Artifact.id = "old-id" ∧ c1Artifact.content_hash = "h1" :=
  ⟨rfl, rfl, rfl, rfl⟩

def c2Parsed : ParsedDocument := { content_hash := "hN", chunks := ["c0", "c1"] }

def c2Job : FileJob :=
  { path := "new.md", parse := .ok c2Parsed, last_modified := 0, newId := "idN" }

def c2Embed : String → Except Unit (List ℝ) := fun s =>
  if s == "c0" then .ok [] else .error ()

def emptyStore : Store := { artifacts := [], embeddings := [], chat_messages := [] }

def c2Artifact : Artifact :=
  { id := "idN", path := "new.md", last_modified := 0, content_hash := "hN", indexed_at := 7 }

def c2Chunk0 : Embedding :=
  { id := "idN#0", artifact_id := "idN", chunk_index := 0, content := "c0", embedding := [] }

def c2PartialStore : Store :=
  { artifacts := [c2Artifact], embeddings := [c2Chunk0], chat_messages := [] }

/-- Claim C2 (code bug): the document record with the new fingerprint is
stored before the chunk loop runs, so when the embedding of chunk 1 of 2
fails, the reachable store pairs the new fingerprint with an incomplete
chunk set (1 of 2 chunks) -- and a subsequent ingestion of the same content
then skips, freezing that state. -/
theorem process_file_partial_bug :
    process_file c2Embed emptyStore c2Job 7 =
      (.error .embedding, c2PartialStore, ["c0", "c1"]) ∧
      c2Artifact.content_hash = c2Parsed.content_hash ∧
      c2PartialStore.embeddings.length = 1 ∧
      c2Parsed.chunks.length = 2 ∧
      process_file c2Embed c2PartialStore c2Job 7 = (.ok (), c2PartialStore, []) :=
  ⟨rfl, rfl, rfl, rfl, rfl⟩

end Ingest
